import Mathlib

/-!
Verification development for the WhatsApp conversation exporter
(message reconstruction and reaction/citation decoding pipeline).

Conventions of the shallow embedding:
* text is modelled as `List Char`, one entry per Unicode code point, which matches
  Python string indexing, slicing and `len` semantics;
* binary blobs are modelled as `List Nat`, one entry per byte (each value < 256);
* SQLite NULLable columns are modelled as `Option` values;
* Python truthiness on optional integers (`None` and `0` are falsy) is modelled
  explicitly where the source relies on it.
-/

namespace WAExport

/-- Whitespace recognised by Python `str.strip` / `str.split` (the Unicode
whitespace set used by CPython for `str` objects). -/
def pyIsSpace (c : Char) : Bool :=
  c = ' ' || c = '\t' || c = '\n' || c = '\r' || c.toNat = 0x0b || c.toNat = 0x0c ||
  (0x1c ≤ c.toNat && c.toNat ≤ 0x1f) || c.toNat = 0x85 || c.toNat = 0xa0 ||
  c.toNat = 0x1680 || (0x2000 ≤ c.toNat && c.toNat ≤ 0x200a) ||
  c.toNat = 0x2028 || c.toNat = 0x2029 || c.toNat = 0x202f || c.toNat = 0x205f ||
  c.toNat = 0x3000

/-- Python `str.strip()`: drop whitespace from both ends. -/
def pyStrip (l : List Char) : List Char :=
  ((l.dropWhile pyIsSpace).reverse.dropWhile pyIsSpace).reverse

/-- Helper for `splitWords`: accumulates the current word (reversed). -/
def splitWordsAux : List Char → List Char → List (List Char)
  | [], acc => if acc = [] then [] else [acc.reverse]
  | c :: rest, acc =>
    if pyIsSpace c then
      if acc = [] then splitWordsAux rest [] else acc.reverse :: splitWordsAux rest []
    else splitWordsAux rest (c :: acc)

/-- Python `str.split()` with no argument: split on whitespace runs, no empty words. -/
def splitWords (l : List Char) : List (List Char) := splitWordsAux l []

/-- Python `' '.join(words)`. -/
def joinWords : List (List Char) → List Char
  | [] => []
  | [w] => w
  | w :: ws => w ++ ' ' :: joinWords ws

/-- Bool-valued list-prefix test (`hasPrefixCl needle l` : does `l` start with `needle`). -/
def hasPrefixCl : List Char → List Char → Bool
  | [], _ => true
  | _ :: _, [] => false
  | b :: bs, a :: as => b = a && hasPrefixCl bs as

/-- Python `needle in haystack` for strings: contiguous-substring test. -/
def containsSub (haystack needle : List Char) : Bool :=
  match haystack with
  | [] => hasPrefixCl needle []
  | c :: rest => hasPrefixCl needle (c :: rest) || containsSub rest needle

/-- Python truthiness for an optional integer column value: `None` and `0` are falsy. -/
def pyTruthyNat (o : Option Nat) : Bool := o.getD 0 ≠ 0

/-- The invisible characters removed by `clean_contact_name`
(src/whatsapp_exporter/utils.py lines 11-27). -/
def invisibleChars : List Char :=
  [Char.ofNat 0x200E, Char.ofNat 0x200F, Char.ofNat 0x202A, Char.ofNat 0x202B,
   Char.ofNat 0x202C, Char.ofNat 0x202D, Char.ofNat 0x202E, Char.ofNat 0x2066,
   Char.ofNat 0x2067, Char.ofNat 0x2068, Char.ofNat 0x2069, Char.ofNat 0xFEFF,
   Char.ofNat 0x200B, Char.ofNat 0x200C, Char.ofNat 0x200D]

/-- `clean_contact_name` (src/whatsapp_exporter/utils.py lines 5-36).  Successively
replacing each invisible character with the empty string equals filtering them all
out (each is a single character); then strip surrounding whitespace; if the result
is empty return the original name.  The leading `if not name` guard returns a falsy
(empty) input unchanged. -/
def cleanContactName (name : List Char) : List Char :=
  if name = [] then name
  else
    let cleaned := name.filter (fun c => ¬ invisibleChars.contains c)
    let stripped := pyStrip cleaned
    if stripped = [] then name else stripped

/-! Participant initials resolver (src/whatsapp_exporter/participants.py). -/

/-- Python `str.capitalize()`: first character uppercased, the rest lowercased. -/
def pyCapitalize : List Char → List Char
  | [] => []
  | c :: rest => c.toUpper :: rest.map Char.toLower

/-- `get_last_name_initials` (participants.py lines 246-257): first character of
each word of the last name, preserving case. -/
def getLastNameInitials (lastNameFull : List Char) : List Char :=
  (splitWords lastNameFull).filterMap List.head?

/-- Base initials of one member name (participants.py lines 263-278): for
multi-word names, the uppercased first letter of the first word concatenated with
the last-name initials; for single-word names, the first two characters
capitalized (`name[:min(2, len(name))].capitalize()`). -/
def baseInitialsOf (name : List Char) : List Char :=
  let parts := splitWords name
  if parts.length ≥ 2 then
    let firstName := parts.headD []
    let lastFull := joinWords (parts.drop 1)
    (match firstName.head? with
     | some c => [c.toUpper]
     | none => []) ++ getLastNameInitials lastFull
  else pyCapitalize (name.take 2)

/-- Conflict-branch initials of one member name (participants.py lines 288-297):
two letters of the first name, capitalized, plus the last-name initials; single
word names again use the first two characters capitalized.  (The Python tuple
stores `first_name` and `has_last_name` computed from the same `name`; they are
recomputed here, which yields identical values.) -/
def resolvedInitialsOf (name : List Char) : List Char :=
  let parts := splitWords name
  if parts.length ≥ 2 then
    let firstName := parts.headD []
    let lastFull := joinWords (parts.drop 1)
    pyCapitalize (firstName.take 2) ++ getLastNameInitials lastFull
  else pyCapitalize (name.take 2)

/-- Insert one member into the conflicts table, grouping by base initials while
keeping insertion order (Python dict-of-lists semantics, participants.py lines
276-278). An entry is a (jid, cleaned name) pair. -/
def addToConflicts (acc : List (List Char × List (List Char × List Char)))
    (key : List Char) (entry : List Char × List Char) :
    List (List Char × List (List Char × List Char)) :=
  if acc.any (fun p => p.1 = key) then
    acc.map (fun p => if p.1 = key then (p.1, p.2 ++ [entry]) else p)
  else acc ++ [(key, [entry])]

/-- `get_group_unique_initials` conflict-resolution core (participants.py lines
259-301), starting from the collected (jid, cleaned display name) pairs in
`member_data`.  Returns the jid → initials map as an association list in Python
dict insertion order: groups with a single holder keep the base initials, groups
with several holders all get the two-letter-first-name variant. -/
def getGroupUniqueInitials (memberData : List (List Char × List Char)) :
    List (List Char × List Char) :=
  let conflicts := memberData.foldl
    (fun acc m => addToConflicts acc (baseInitialsOf m.2) m) []
  conflicts.foldl (fun acc p =>
    match p.2 with
    | [e] => acc ++ [(e.1, p.1)]
    | people => acc ++ people.map (fun e => (e.1, resolvedInitialsOf e.2))) []

/-! UTF-8 decoding (Python bytes.decode semantics). -/

/-- UTF-8 continuation-byte test. -/
def isCont (b : Nat) : Bool := 0x80 ≤ b && b ≤ 0xBF

/-- Strict UTF-8 decoding of a byte list to characters (Python
bytes.decode with utf-8 and strict errors): rejects overlong encodings,
surrogates and values beyond the last code point.  `none` models a raised
UnicodeDecodeError. -/
def utf8DecodeStrict : List Nat → Option (List Char)
  | [] => some []
  | b1 :: rest =>
    if b1 < 0x80 then (utf8DecodeStrict rest).map (fun cs => Char.ofNat b1 :: cs)
    else if 0xC2 ≤ b1 && b1 ≤ 0xDF then
      match rest with
      | b2 :: rest2 =>
        if isCont b2 then
          (utf8DecodeStrict rest2).map (fun cs =>
            Char.ofNat ((b1 - 0xC0) * 0x40 + (b2 - 0x80)) :: cs)
        else none
      | [] => none
    else if 0xE0 ≤ b1 && b1 ≤ 0xEF then
      match rest with
      | b2 :: b3 :: rest3 =>
        let okB2 : Bool :=
          if b1 = 0xE0 then 0xA0 ≤ b2 && b2 ≤ 0xBF
          else if b1 = 0xED then 0x80 ≤ b2 && b2 ≤ 0x9F
          else isCont b2
        if okB2 && isCont b3 then
          (utf8DecodeStrict rest3).map (fun cs =>
            Char.ofNat ((b1 - 0xE0) * 0x1000 + (b2 - 0x80) * 0x40 + (b3 - 0x80)) :: cs)
        else none
      | _ => none
    else if 0xF0 ≤ b1 && b1 ≤ 0xF4 then
      match rest with
      | b2 :: b3 :: b4 :: rest4 =>
        let okB2 : Bool :=
          if b1 = 0xF0 then 0x90 ≤ b2 && b2 ≤ 0xBF
          else if b1 = 0xF4 then 0x80 ≤ b2 && b2 ≤ 0x8F
          else isCont b2
        if okB2 && isCont b3 && isCont b4 then
          (utf8DecodeStrict rest4).map (fun cs =>
            Char.ofNat ((b1 - 0xF0) * 0x40000 + (b2 - 0x80) * 0x1000 +
              (b3 - 0x80) * 0x40 + (b4 - 0x80)) :: cs)
        else none
      | _ => none
    else none

/-- UTF-8 decoding with ignored errors (Python bytes.decode with utf-8 and
errors ignore): invalid bytes are skipped.  Skipping invalid bytes one at a
time yields the same character output as CPython skipping each maximal invalid
subpart, because every byte of an invalid run is itself invalid as a sequence
start or is a lone continuation byte. -/
def utf8DecodeIgnoreAux : Nat → List Nat → List Char
  | 0, _ => []
  | _, [] => []
  | fuel + 1, b1 :: rest =>
    if b1 < 0x80 then Char.ofNat b1 :: utf8DecodeIgnoreAux fuel rest
    else if 0xC2 ≤ b1 && b1 ≤ 0xDF then
      match rest with
      | b2 :: rest2 =>
        if isCont b2 then
          Char.ofNat ((b1 - 0xC0) * 0x40 + (b2 - 0x80)) :: utf8DecodeIgnoreAux fuel rest2
        else utf8DecodeIgnoreAux fuel rest
      | [] => []
    else if 0xE0 ≤ b1 && b1 ≤ 0xEF then
      match rest with
      | b2 :: b3 :: rest3 =>
        let okB2 : Bool :=
          if b1 = 0xE0 then 0xA0 ≤ b2 && b2 ≤ 0xBF
          else if b1 = 0xED then 0x80 ≤ b2 && b2 ≤ 0x9F
          else isCont b2
        if okB2 && isCont b3 then
          Char.ofNat ((b1 - 0xE0) * 0x1000 + (b2 - 0x80) * 0x40 + (b3 - 0x80)) ::
            utf8DecodeIgnoreAux fuel rest3
        else utf8DecodeIgnoreAux fuel rest
      | _ => utf8DecodeIgnoreAux fuel rest
    else if 0xF0 ≤ b1 && b1 ≤ 0xF4 then
      match rest with
      | b2 :: b3 :: b4 :: rest4 =>
        let okB2 : Bool :=
          if b1 = 0xF0 then 0x90 ≤ b2 && b2 ≤ 0xBF
          else if b1 = 0xF4 then 0x80 ≤ b2 && b2 ≤ 0x8F
          else isCont b2
        if okB2 && isCont b3 && isCont b4 then
          Char.ofNat ((b1 - 0xF0) * 0x40000 + (b2 - 0x80) * 0x1000 +
            (b3 - 0x80) * 0x40 + (b4 - 0x80)) :: utf8DecodeIgnoreAux fuel rest4
        else utf8DecodeIgnoreAux fuel rest
      | _ => utf8DecodeIgnoreAux fuel rest
    else utf8DecodeIgnoreAux fuel rest

/-- UTF-8 decoding with ignored errors, entry point: every recursive step of
the worker consumes at least one byte, so fuel equal to the byte count is
always sufficient. -/
def utf8DecodeIgnore (bytes : List Nat) : List Char :=
  utf8DecodeIgnoreAux bytes.length bytes

/-- Removal of ASCII control characters: the regex substitution replacing runs
of characters x00-x1f with the empty string (core.py line 459). -/
def rmCtrl (l : List Char) : List Char := l.filter (fun c => ¬ c.toNat ≤ 0x1f)

/-! Varint decoding and the quoted-text scanning loops
(src/whatsapp_exporter/core.py). -/

/-- Accumulating loop of `_decode_varint` (core.py lines 372-388), structural
recursion over the byte suffix.  Each iteration ORs the low 7 bits of the byte
at `pos` into `value` at `shift`, advances `pos`, stops on a clear continue bit
or when `shift` reaches 64 after its increment. -/
def decodeVarintAux : List Nat → Nat → Nat → Nat → Nat × Nat
  | [], value, _, pos => (value, pos)
  | b :: rest, value, shift, pos =>
    let value := value ||| ((b &&& 0x7F) <<< shift)
    let pos := pos + 1
    if b &&& 0x80 == 0 then (value, pos)
    else if shift + 7 ≥ 64 then (value, pos)
    else decodeVarintAux rest value (shift + 7) pos

/-- `_decode_varint(blob, start_pos)` (core.py lines 372-388): returns the
decoded value and the next position. -/
def decodeVarint (blob : List Nat) (startPos : Nat) : Nat × Nat :=
  decodeVarintAux (blob.drop startPos) 0 0 startPos

/-- Result of quoted-text extraction: either a ForwardInfo marker wrapping the
sanitized hash, or plain quoted text. -/
inductive QuotedResult where
  | forward (hash : List Char)
  | text (s : List Char)
deriving DecidableEq, Repr

/-- The apostrophe character. -/
def apos : Char := Char.ofNat 39

/-- The backtick character. -/
def btick : Char := Char.ofNat 96

/-- The opening brace character. -/
def obrace : Char := Char.ofNat 123

/-- The closing brace character. -/
def cbrace : Char := Char.ofNat 125

/-- ASCII alphanumeric test (regex class of letters and digits). -/
def isAsciiAlnum (c : Char) : Bool :=
  ('A' ≤ c && c ≤ 'Z') || ('a' ≤ c && c ≤ 'z') || ('0' ≤ c && c ≤ '9')

/-- Characters kept by the sanitizing substitution of the forward-hash check
(core.py line 463): ASCII alphanumerics, the apostrophe, the backtick, and
braces. -/
def isHashKeepChar (c : Char) : Bool :=
  isAsciiAlnum c || c = apos || c = btick || c = obrace || c = cbrace

/-- Sanitization step of the forward-hash check (core.py line 463). -/
def sanitizeForHash (text : List Char) : List Char := text.filter isHashKeepChar

/-- Characters allowed in the second token of the forward-hash shape:
ASCII alphanumerics and braces. -/
def isAlnumBrace (c : Char) : Bool := isAsciiAlnum c || c = obrace || c = cbrace

/-- Split test at index `i` of the forward-hash shape: the sanitized text
decomposes as a 2-24 character alphanumeric token, an apostrophe or backtick at
`i`, and a 2-48 character alphanumeric-or-brace tail. -/
def hashSplitAt (cs : List Char) (i : Nat) : Bool :=
  match cs.get? i with
  | some c =>
    (c = apos || c = btick) &&
    (cs.take i).all isAsciiAlnum && 2 ≤ i && i ≤ 24 &&
    (cs.drop (i+1)).all isAlnumBrace &&
    2 ≤ cs.length - (i+1) && cs.length - (i+1) ≤ 48
  | none => false

/-- Executable rendering of the fullmatch against the forward-hash regex
(core.py line 465): some split position witnesses the shape. -/
def matchesHashShape (cs : List Char) : Bool :=
  (List.range cs.length).any (hashSplitAt cs)

/-- Per-character condition of the final check on core.py line 466: a digit, a
brace, or an uppercase letter.  The sanitized text contains only ASCII
alphanumerics, apostrophes, backticks and braces, so the ASCII reading of the
Python Unicode predicates is exact. -/
def isUpperDigitBrace (c : Char) : Bool :=
  ('0' ≤ c && c ≤ '9') || c = obrace || c = cbrace || ('A' ≤ c && c ≤ 'Z')

/-- Forward-hash test (core.py lines 463-466; identical in the enhanced
exporter lines 501-504): the sanitized text is longer than 10 characters,
matches the token-separator-token shape, and contains a digit, brace or
uppercase letter. -/
def isForwardHashText (text : List Char) : Bool :=
  let s := sanitizeForHash text
  s.length > 10 && matchesHashShape s && s.any isUpperDigitBrace

/-- Truncation of a long quote (core.py lines 471-473 and 508-510): texts
longer than 50 characters are cut at 50, the last (possibly clipped) word is
dropped when there are several words, and an ellipsis marker is appended. -/
def truncate50 (text : List Char) : List Char :=
  if text.length > 50 then
    let words := splitWords (text.take 50)
    if words.length > 1 then joinWords words.dropLast ++ "...".toList
    else text.take 50 ++ "...".toList
  else text

/-- Classification of a cleaned decoded tag-1 text (core.py lines 461-474),
applied when the text has more than 3 characters: forward hashes become
ForwardInfo markers carrying the sanitized text, anything else is accepted as a
quote, truncated when long. -/
def classifyQuotedText (text : List Char) : QuotedResult :=
  if isForwardHashText text then .forward (sanitizeForHash text)
  else .text (truncate50 text)

/-- One attempt of the primary tag-1 scan at index `i` (core.py lines 446-476):
at byte 0x0a (tag 1, wire type 2), read the length (single byte below 128,
otherwise a varint), and when the record fits inside the blob with length above
10, decode permissively, strip, remove control characters, and classify if more
than 3 characters remain.  `none` means the loop falls through to `i + 1`. -/
def tag1TryAt (blob : List Nat) (i : Nat) : Option QuotedResult :=
  let b := blob.getD i 0
  if b == 0x0a && b &&& 0x7 == 2 then
    let ld : Nat × Nat :=
      if blob.getD (i+1) 0 < 128 then (blob.getD (i+1) 0, i + 2)
      else decodeVarint blob (i + 1)
    if ld.2 + ld.1 ≤ blob.length && ld.1 > 10 then
      let text := rmCtrl (pyStrip (utf8DecodeIgnore ((blob.drop ld.2).take ld.1)))
      if text.length > 3 then some (classifyQuotedText text) else none
    else none
  else none

/-- The primary tag-1 scan loop (core.py lines 444-477): runs while
`i < len(blob) - 3` and the index advances by exactly one byte on every step.
Fuel bounds the iteration count; `blob.length + 1` fuel is always enough. -/
def tag1ScanAux (blob : List Nat) : Nat → Nat → Option QuotedResult
  | 0, _ => none
  | fuel + 1, i =>
    if i < blob.length - 3 then
      match tag1TryAt blob i with
      | some r => some r
      | none => tag1ScanAux blob fuel (i + 1)
    else none

/-- One step of the fallback scan (core.py lines 482-505): at index `i`, for a
length-delimited wire type with tag 0, 2, 3 or 4 and a single-byte length below
128, return the captured text (when the record fits and 10 < length < 500 and
the cleaned text has more than 3 characters) and the next index
`i + data_start + length` where `data_start = i + 2` — the Python statement
adds the absolute position `data_start`, so the index jumps past
`2 * i + 2 + length`, fit or no fit; every other case advances one byte. -/
def fallbackStep (blob : List Nat) (i : Nat) : Nat × Option (List Char) :=
  let b := blob.getD i 0
  if b &&& 0x7 == 2 then
    let tag := b >>> 3
    if tag ≤ 4 && tag ≠ 1 then
      let lengthByte := blob.getD (i+1) 0
      if lengthByte < 128 then
        let dataStart := i + 2
        let captured :=
          if dataStart + lengthByte ≤ blob.length && 10 < lengthByte && lengthByte < 500 then
            let text := rmCtrl (pyStrip (utf8DecodeIgnore ((blob.drop dataStart).take lengthByte)))
            if text.length > 3 then some text else none
          else none
        (i + dataStart + lengthByte, captured)
      else (i + 1, none)
    else (i + 1, none)
  else (i + 1, none)

/-- The fallback scan loop (core.py lines 480-505): runs while
`i < len(blob) - 2`, keeping the first captured text (best_match). -/
def fallbackScanAux (blob : List Nat) : Nat → Nat → Option (List Char) → Option (List Char)
  | 0, _, best => best
  | fuel + 1, i, best =>
    if i < blob.length - 2 then
      let step := fallbackStep blob i
      let best := match best with
        | some b => some b
        | none => step.2
      fallbackScanAux blob fuel step.1 best
    else best

/-- Metadata-blob part of `_extract_quoted_text` (core.py lines 440-513): the
primary tag-1 scan, then the fallback scan whose best match is truncated like a
quote. -/
def extractQuotedTextBlob (blob : List Nat) : Option QuotedResult :=
  match tag1ScanAux blob (blob.length + 1) 0 with
  | some r => some r
  | none =>
    match fallbackScanAux blob (blob.length + 1) 0 none with
    | some best => some (.text (truncate50 best))
    | none => none

/-! Message pipeline (src/whatsapp_exporter/core.py). -/

/-- One row of the ZWAMEDIAITEM table as consumed by `_extract_quoted_text`:
local path, title and binary metadata blob (all NULLable columns). -/
structure MediaItem where
  localPath : Option (List Char)
  title : Option (List Char)
  metadata : Option (List Nat)
deriving DecidableEq, Repr

/-- Final path component (after the last slash). -/
def basenameOf (path : List Char) : List Char :=
  (path.reverse.takeWhile (fun c => c ≠ '/')).reverse

/-- Index of the last dot of a basename, if any. -/
def lastDotIdx (bn : List Char) : Option Nat :=
  ((List.range bn.length).filter (fun i => bn.getD i ' ' = '.')).getLast?

/-- Python os.path.splitext extension of a path: starts at the last dot of the
final component provided some earlier character of that component is not a
dot (so leading dots never begin an extension). -/
def extOf (path : List Char) : List Char :=
  let bn := basenameOf path
  match lastDotIdx bn with
  | some i => if (bn.take i).any (fun c => c ≠ '.') then bn.drop i else []
  | none => []

/-- Lowercased extension, as in core.py line 416. -/
def extLower (path : List Char) : List Char := (extOf path).map Char.toLower

/-- Media-type name from the extension (core.py lines 417-424). -/
def mediaTypeOf (ext : List Char) : List Char :=
  if ext = ".jpg".toList ∨ ext = ".jpeg".toList ∨ ext = ".png".toList ∨
      ext = ".gif".toList ∨ ext = ".webp".toList then "Image".toList
  else if ext = ".mp4".toList ∨ ext = ".mov".toList ∨ ext = ".avi".toList then
    "Video".toList
  else if ext = ".mp3".toList ∨ ext = ".wav".toList ∨ ext = ".m4a".toList then
    "Audio".toList
  else "Media".toList

/-- `_extract_quoted_text(media_item_id)` (core.py lines 401-516).  The two
database reads of the ZWAMEDIAITEM row are modelled by the `media` lookup
function (the database state).  A row with a truthy local path yields a media
quote built from the extension and the optional stripped title; otherwise the
metadata blob, when truthy, is scanned. -/
def extractQuotedText (media : Nat → Option MediaItem) (mid : Nat) :
    Option QuotedResult :=
  match media mid with
  | none => none
  | some item =>
    let blobPart : Option QuotedResult :=
      match item.metadata with
      | none => none
      | some blob => if blob = [] then none else extractQuotedTextBlob blob
    match item.localPath with
    | some path =>
      if path ≠ [] then
        let mt := mediaTypeOf (extLower path)
        match item.title with
        | some t =>
          if pyStrip t ≠ [] then
            some (.text ("[".toList ++ mt ++ "] ".toList ++ pyStrip t))
          else some (.text ("[".toList ++ mt ++ "]".toList))
        | none => some (.text ("[".toList ++ mt ++ "]".toList))
      else blobPart
    | none => blobPart

/-- The fields of one fetched message row used by the modelled pipeline
(core.py lines 228-253): Z_PK, ZMESSAGEDATE, ZTEXT, ZISFROMME, ZMESSAGETYPE,
ZPARENTMESSAGE, ZFLAGS and ZMEDIAITEM.  Columns only feeding unmodelled
enrichment (sender display name, reaction blob, filesystem media info) are
omitted; see `processMessageRow`. -/
structure RowData where
  messageId : Nat
  timestamp : Option Int
  content : Option (List Char)
  isFromMe : Bool
  messageType : Option Nat
  parentMessageId : Option Nat
  flags : Option Nat
  mediaItemId : Option Nat
deriving DecidableEq, Repr

/-- The message dictionary fields tracked by the model.  `date` is the naive
timestamp in seconds: `_convert_timestamp` (core.py lines 362-370) formats
`timestamp + 978307200` through strftime and the reply matching re-parses the
string with strptime — an exact numeric round trip — so the model keeps the
number; a falsy (absent or zero) raw timestamp gives no date. -/
structure Message where
  messageId : Nat
  date : Option Int
  content : List Char
  isFromMe : Bool
  messageType : Option Nat
  parentMessageId : Option Nat
  flags : Nat
  mediaItemId : Option Nat
  quotedText : Option (List Char)
  isForwarded : Bool
deriving DecidableEq, Repr

/-- `_convert_timestamp` (core.py lines 362-370); a falsy timestamp maps to
None. -/
def convertTimestamp : Option Int → Option Int
  | none => none
  | some t => if t = 0 then none else some (t + 978307200)

/-- Forward-indicator content check `_check_forwarded_message` (core.py lines
728-733): the lowercased content contains forwarded, transferred, or the hook
arrow.  The per-character lowercasing agrees with Python for these pure-ASCII
needles. -/
def checkForwardedContent (content : List Char) : Bool :=
  let lower := content.map Char.toLower
  containsSub lower "forwarded".toList || containsSub lower "transferred".toList ||
    containsSub lower [Char.ofNat 0x21AA]

/-- `_process_message_row` (core.py lines 278-360) restricted to the fields the
claims depend on.  Sender-name lookup, reaction decoding and filesystem media
info only fill fields the model does not track.  `parentMediaOf` models the
`_get_parent_message_media_id` query (its None also covers NULL, zero and
error results, which Python treats alike through truthiness). -/
def processMessageRow (media : Nat → Option MediaItem)
    (parentMediaOf : Nat → Option Nat) (row : RowData) : Message :=
  let content := row.content.getD []
  let flags := row.flags.getD 0
  let q1 : Option QuotedResult :=
    if pyTruthyNat row.mediaItemId then extractQuotedText media (row.mediaItemId.getD 0)
    else none
  let q2 : Option QuotedResult :=
    match q1 with
    | some r => some r
    | none =>
      if pyTruthyNat row.parentMessageId then
        match parentMediaOf (row.parentMessageId.getD 0) with
        | some pmid => extractQuotedText media pmid
        | none => none
      else none
  let quotedText : Option (List Char) :=
    match q2 with
    | some (.text t) => some t
    | _ => none
  { messageId := row.messageId
    date := convertTimestamp row.timestamp
    content := content
    isFromMe := row.isFromMe
    messageType := row.messageType
    parentMessageId := row.parentMessageId
    flags := flags
    mediaItemId := row.mediaItemId
    quotedText := quotedText
    isForwarded := (flags &&& 0x180 == 0x180) || checkForwardedContent content }

/-- Python truthiness of an optional string (None and the empty string are
falsy). -/
def pyTruthyStr (o : Option (List Char)) : Bool := o.getD [] ≠ []

/-- Message lookup by id (the Python dict comprehension on core.py line 738;
the last entry wins on duplicate ids). -/
def msgLookup (msgs : List Message) (pid : Nat) : Option Message :=
  (msgs.filter (fun m => m.messageId == pid)).getLast?

/-- First post-processing pass (core.py lines 737-748): resolve direct parent
quotes.  The in-place mutation writes only `quoted_text` and reads only ids
and contents, so mapping over a snapshot of the list is equivalent. -/
def resolveParentQuotes (msgs : List Message) : List Message :=
  msgs.map (fun m =>
    if pyTruthyStr m.quotedText then m
    else if ¬ pyTruthyNat m.parentMessageId then m
    else
      match msgLookup msgs (m.parentMessageId.getD 0) with
      | some parent =>
        let quoted := if parent.content ≠ [] then parent.content.take 50 else []
        let quoted := if parent.content.length > 50 then quoted ++ "...".toList else quoted
        { m with quotedText := some quoted }
      | none => m)

/-- The pronoun fragments looked for in candidate quoted content
(core.py line 809). -/
def frenchWords : List (List Char) :=
  ["que".toList, "je".toList, "tu".toList, "il".toList, "elle".toList,
   "on".toList, "nous".toList, "vous".toList, "ils".toList]

/-- Pronoun-fragment heuristic on a long tag-1 record (core.py line 809):
substring containment in the lowercased text. -/
def frenchWordCheck (text : List Char) : Bool :=
  frenchWords.any (fun w => containsSub (text.map Char.toLower) w)

/-- Fragment-collection loop of `_parse_metadata_replies` (core.py lines
785-822): parts come from tags 5, 6, 9, 13, 14 (declared length 11-129) and
tags 2, 3, 4 (declared length 16-199 with text longer than 15); the last tag-1
record of declared length 51-499 whose text is longer than 20 characters and
passes the pronoun heuristic becomes the quoted-content candidate (first 200
characters).  Python slicing truncates record data to the available bytes; the
index advances by 2 plus the declared length after any length-delimited
header, one byte otherwise. -/
def partsScanAux (blob : List Nat) :
    Nat → Nat → List (List Char) → Option (List Char) →
      List (List Char) × Option (List Char)
  | 0, _, parts, qc => (parts, qc)
  | fuel + 1, i, parts, qc =>
    if i < blob.length - 2 then
      let b := blob.getD i 0
      if b &&& 7 == 2 && i + 1 < blob.length then
        let tag := b >>> 3
        let lb := blob.getD (i + 1) 0
        let text := pyStrip (utf8DecodeIgnore ((blob.drop (i + 2)).take lb))
        let pq : List (List Char) × Option (List Char) :=
          if (10 < lb && lb < 130) &&
              (tag == 5 || tag == 6 || tag == 9 || tag == 13 || tag == 14) then
            (if text ≠ [] then parts ++ [text] else parts, qc)
          else if tag == 1 && (50 < lb && lb < 500) then
            (parts,
             if text ≠ [] && text.length > 20 && frenchWordCheck text then
               some (text.take 200)
             else qc)
          else if (tag == 2 || tag == 3 || tag == 4) && (15 < lb && lb < 200) then
            (if text ≠ [] && text.length > 15 then parts ++ [text] else parts, qc)
          else (parts, qc)
        partsScanAux blob fuel (i + 2 + lb) pq.1 pq.2
      else partsScanAux blob fuel (i + 1) parts qc
    else (parts, qc)

/-- The stopword set removed before word-overlap matching (core.py line 926). -/
def commonWords : List (List Char) :=
  ["le".toList, "la".toList, "les".toList, "de".toList, "du".toList,
   "des".toList, "un".toList, "une".toList, "et".toList, "ou".toList,
   "que".toList, "qui".toList, "je".toList, "tu".toList, "il".toList,
   "elle".toList, "on".toList, "nous".toList, "vous".toList, "ils".toList,
   "elles".toList, "ce".toList, "ca".toList, "ça".toList]

/-- Candidate time and sender guards shared by the matching passes (core.py
lines 853-867 and 893-912): the candidate must come from the other sender,
both dates must be present, the candidate must be strictly earlier, and the
delta must not exceed 48 hours (strict greater-than rejection).  Returns the
delta in seconds when the candidate is eligible. -/
def candidateCheck (cand msg : Message) : Option Int :=
  if cand.isFromMe == msg.isFromMe then none
  else
    match cand.date, msg.date with
    | some t1, some t2 =>
      if t1 ≥ t2 then none
      else if t2 - t1 > 48 * 3600 then none
      else some (t2 - t1)
    | _, _ => none

/-- Distinct significant words of a text: Python set(text.split()) minus the
stopword set. -/
def significantWords (text : List Char) : List (List Char) :=
  ((splitWords text).dedup).filter (fun w => ¬ commonWords.contains w)

/-- `_find_matching_message_by_content` (core.py lines 883-938): the first
candidate (in list order) with truthy content, from the other sender, earlier
and within 48 hours, whose lowercased stripped content contains the first 50
characters of the lowercased stripped quoted content, or shares enough
distinct significant words: with L distinct significant quoted words and both
sides above 3, overlap at least min(3, 0.6 L); for an integer overlap o that
is exactly (3 ≤ o or 5 o ≥ 3 L), and the float arithmetic introduces no
deviation at the reachable values. -/
def findMatchingByContent (msgs : List Message) (quotedContent : List Char)
    (replyMsg : Message) : Option Message :=
  let cleanQuoted := pyStrip (quotedContent.map Char.toLower)
  msgs.find? (fun cand =>
    if cand.content = [] then false
    else
      match candidateCheck cand replyMsg with
      | none => false
      | some _ =>
        let candContent := pyStrip (cand.content.map Char.toLower)
        if containsSub candContent (cleanQuoted.take 50) then true
        else
          let qw := significantWords cleanQuoted
          let cw := significantWords candContent
          if qw.length > 3 && cw.length > 3 then
            let overlap := (qw.filter (fun w => cw.contains w)).length
            decide (3 ≤ overlap) || decide (5 * overlap ≥ 3 * qw.length)
          else false)

/-- Insert into the originals index (Python dict-of-lists setdefault-append,
core.py lines 771-775). -/
def addOriginal (acc : List (List Char × List Message)) (key : List Char)
    (msg : Message) : List (List Char × List Message) :=
  if acc.any (fun p => p.1 = key) then
    acc.map (fun p => if p.1 = key then (p.1, p.2 ++ [msg]) else p)
  else acc ++ [(key, [msg])]

/-- The originals index: messages whose stripped content has at least 40
characters, keyed by its first 60 characters (core.py lines 771-775). -/
def buildOriginals (msgs : List Message) : List (List Char × List Message) :=
  msgs.foldl (fun acc m =>
    let text := pyStrip m.content
    if text.length ≥ 40 then addOriginal acc (text.take 60) m else acc) []

/-- Candidate fold of the fragment matching (core.py lines 843-873): scan the
originals in insertion order; a key matches when some part longer than 15
characters is a substring of it or its 25-character prefix occurs in the
reconstruction; among candidates passing `candidateCheck`, keep the strictly
smallest delta (first found wins ties). -/
def selectBestMatch (originals : List (List Char × List Message))
    (parts : List (List Char)) (recon : List Char) (msg : Message) :
    Option Message :=
  (originals.foldl (fun (best : Option Message × Option Int) p =>
    let matchFound :=
      parts.any (fun part => part.length > 15 && containsSub p.1 part) ||
        containsSub recon (p.1.take 25)
    if matchFound then
      p.2.foldl (fun b cand =>
        match candidateCheck cand msg with
        | none => b
        | some delta =>
          match b.2 with
          | none => (some cand, some delta)
          | some bd => if delta < bd then (some cand, some delta) else b) best
    else best) (none, none)).1

/-- Truncation applied when a match sets the quote (core.py lines 830-835 and
877-881): content longer than 90 characters is cut at 90 and the last word
dropped with an ellipsis appended; with a single word the first 85 characters
are kept instead. -/
def truncate90 (content : List Char) : List Char :=
  if content.length > 90 then
    let words := splitWords (content.take 90)
    if words.length > 1 then joinWords words.dropLast ++ "...".toList
    else content.take 85 ++ "...".toList
  else content

/-- Per-target step of `_parse_metadata_replies` (core.py lines 778-881):
collect fragments, then either the quoted-content direct match, or the
fragment-reconstruction match over the originals index. -/
def applyMetadataReply (media : Nat → Option MediaItem) (msgs : List Message)
    (m : Message) : Message :=
  let blobOpt : Option (List Nat) :=
    match (media (m.mediaItemId.getD 0)).bind MediaItem.metadata with
    | some blob => if blob = [] then none else some blob
    | none => none
  match blobOpt with
  | none => m
  | some blob =>
    let pq := partsScanAux blob (blob.length + 1) 0 [] none
    let parts := pq.1
    let qc := pq.2
    let fragMatch : Message :=
      let recon := joinWords parts
      match selectBestMatch (buildOriginals msgs) parts recon m with
      | some best =>
        if ¬ pyTruthyStr m.quotedText then
          { m with quotedText := some (truncate90 best.content) }
        else m
      | none => m
    if parts.length ≥ 2 || pyTruthyStr qc then
      if pyTruthyStr qc && parts.length < 2 then
        match findMatchingByContent msgs (qc.getD []) m with
        | some best => { m with quotedText := some (truncate90 best.content) }
        | none => m
      else if parts.length < 2 then m
      else fragMatch
    else fragMatch

/-- Target condition of the metadata-reply pass (core.py lines 751-752): falsy
quoted text, falsy parent id, truthy media item id. -/
def isReplyTarget (m : Message) : Bool :=
  ¬ pyTruthyStr m.quotedText && ¬ pyTruthyNat m.parentMessageId &&
    pyTruthyNat m.mediaItemId

/-- `_parse_metadata_replies` over the whole list (core.py lines 751-753 and
755-881): the Python code mutates the target subset of the message list in
place; the mutation writes only `quoted_text` while the candidate search reads
ids, contents, senders and dates, so mapping each target against the list
snapshot is equivalent. -/
def parseMetadataReplies (media : Nat → Option MediaItem)
    (msgs : List Message) : List Message :=
  msgs.map (fun m => if isReplyTarget m then applyMetadataReply media msgs m else m)

/-- `_post_process_messages` (core.py lines 735-753): the parent-quote pass
followed by the metadata-reply pass. -/
def postProcessMessages (media : Nat → Option MediaItem)
    (msgs : List Message) : List Message :=
  parseMetadataReplies media (resolveParentQuotes msgs)

/-- `_get_conversation_messages` happy path (core.py lines 222-272): process
each fetched row, then post-process.  The surrounding try/except is modelled
by `getConversationMessagesTry`. -/
def getConversationMessages (media : Nat → Option MediaItem)
    (parentMediaOf : Nat → Option Nat) (rows : List RowData) : List Message :=
  postProcessMessages media (rows.map (processMessageRow media parentMediaOf))

/-- Control structure of `_get_conversation_messages` (core.py lines 222-276)
with the fallible per-row processing abstracted: the entire row loop and the
post-processing run inside a single try block, so a Python exception raised
while processing any row propagates out of the loop and the handler returns
the empty list.  `process` stands for `_process_message_row`, whose possible
exceptions (for example a flags column holding a non-integer) lie outside the
typed model; the first failing row aborts the remainder of the loop, exactly
as a propagating Python exception would. -/
def processAllRows (process : RowData → Except Unit Message) :
    List RowData → Except Unit (List Message)
  | [] => .ok []
  | r :: rest =>
    match process r with
    | .ok m =>
      match processAllRows process rest with
      | .ok ms => .ok (m :: ms)
      | .error e => .error e
    | .error e => .error e

/-- Entry point of the batch-try model: on success post-process, on any row
failure return the empty list (core.py lines 274-276). -/
def getConversationMessagesTry (media : Nat → Option MediaItem)
    (process : RowData → Except Unit Message) (rows : List RowData) :
    List Message :=
  match processAllRows process rows with
  | .ok msgs => postProcessMessages media msgs
  | .error _ => []

/-! Duplicate-forward removal and the forwarded flag of the enhanced exporter
(src/whatsapp_conversation_exporter_enhance.py). -/

/-- The message fields consumed by the duplicate-forward removal of the
enhanced exporter (enhance.py lines 808-819): content and date as stored
(NULLable), the forwarded flag, and the id to tell messages apart. -/
structure EMsg where
  messageId : Nat
  content : Option (List Char)
  date : Option Int
  isForwarded : Bool
deriving DecidableEq, Repr

/-- Duplicate-forward removal (enhance.py lines 808-819): walk the list with a
seen-key set; a forwarded message whose (content, date) key was already
recorded by an earlier forwarded message is dropped, otherwise its key is
recorded; non-forwarded messages always pass through and never record keys. -/
def removeDuplicateForwards :
    List EMsg → List (Option (List Char) × Option Int) → List EMsg
  | [], _ => []
  | m :: rest, seen =>
    if m.isForwarded then
      if (m.content, m.date) ∈ seen then removeDuplicateForwards rest seen
      else m :: removeDuplicateForwards rest ((m.content, m.date) :: seen)
    else m :: removeDuplicateForwards rest seen

/-- Forwarded-flag computation of the enhanced exporter (enhance.py lines
753-754): NULL flags count as 0 and the flag is the pure bit test against
0x180. -/
def isForwardedEnhance (flags : Option Nat) : Bool :=
  flags.getD 0 &&& 0x180 == 0x180

/-! Reaction decoding (`_extract_reaction_emoji`, core.py lines 559-634). -/

/-- Uppercase hexadecimal digit of a value below 16. -/
def hexDigit (n : Nat) : Char :=
  if n < 10 then Char.ofNat (48 + n) else Char.ofNat (55 + n)

/-- Python bytes.hex().upper(): two uppercase hexadecimal characters per
byte. -/
def hexOfBytes (bytes : List Nat) : List Char :=
  bytes.foldr (fun b acc => hexDigit (b % 256 / 16) :: hexDigit (b % 16) :: acc) []

/-- Value of an uppercase hexadecimal digit (0 for other characters; the
scans only ever feed hexadecimal digits). -/
def hexVal (c : Char) : Nat :=
  if '0' ≤ c && c ≤ '9' then c.toNat - 48
  else if 'A' ≤ c && c ≤ 'F' then c.toNat - 55
  else 0

/-- Python bytes.fromhex on an even-length hexadecimal string. -/
def bytesOfHex : List Char → List Nat
  | c1 :: c2 :: rest => (hexVal c1 * 16 + hexVal c2) :: bytesOfHex rest
  | _ => []

/-- Uppercase hexadecimal character class of the emoji regexes. -/
def isHexDigitUpper (c : Char) : Bool :=
  ('0' ≤ c && c ≤ '9') || ('A' ≤ c && c ≤ 'F')

/-- Match test of the modern-emoji regex at the head of the list: the four
characters F09F followed by four more hexadecimal characters
(core.py line 574). -/
def f09fMatchAt (l : List Char) : Bool :=
  hasPrefixCl "F09F".toList l &&
    ((l.drop 4).take 4).length = 4 && ((l.drop 4).take 4).all isHexDigitUpper

/-- re.findall of the modern-emoji pattern: leftmost, non-overlapping
8-character matches.  Fuel equal to the list length is always enough since
each step consumes at least one character. -/
def findF09FMatchesAux : Nat → List Char → List (List Char)
  | 0, _ => []
  | _, [] => []
  | fuel + 1, c :: rest =>
    if f09fMatchAt (c :: rest) then
      (c :: rest).take 8 :: findF09FMatchesAux fuel ((c :: rest).drop 8)
    else findF09FMatchesAux fuel rest

/-- All modern-emoji matches of a hex string. -/
def findF09FMatches (l : List Char) : List (List Char) :=
  findF09FMatchesAux l.length l

/-- Second character class of the legacy-emoji regex (8, 9, A or B). -/
def isE2SecondChar (c : Char) : Bool :=
  ('8' ≤ c && c ≤ '9') || ('A' ≤ c && c ≤ 'B')

/-- Match test of the legacy-symbol regex at the head of the list: E2, one
character in 8-B, and three hexadecimal characters (core.py line 601). -/
def e2MatchAt (l : List Char) : Bool :=
  hasPrefixCl "E2".toList l &&
    (match l.drop 2 with
     | c1 :: c2 :: c3 :: c4 :: _ =>
       isE2SecondChar c1 && isHexDigitUpper c2 && isHexDigitUpper c3 && isHexDigitUpper c4
     | _ => false)

/-- re.findall of the legacy-symbol pattern: leftmost, non-overlapping
6-character matches. -/
def findE2MatchesAux : Nat → List Char → List (List Char)
  | 0, _ => []
  | _, [] => []
  | fuel + 1, c :: rest =>
    if e2MatchAt (c :: rest) then
      (c :: rest).take 6 :: findE2MatchesAux fuel ((c :: rest).drop 6)
    else findE2MatchesAux fuel rest

/-- All legacy-symbol matches of a hex string. -/
def findE2Matches (l : List Char) : List (List Char) :=
  findE2MatchesAux l.length l

/-- Python str.find with a needle known to occur (the candidate loops only
search for strings returned by findall over the same haystack, so the
not-found branch is unreachable; the haystack length stands in for it). -/
def firstIdx : List Char → List Char → Nat
  | [], _ => 0
  | c :: rest, needle =>
    if hasPrefixCl needle (c :: rest) then 0 else 1 + firstIdx rest needle

/-- Skin-tone-modifier match at the head of the remaining hex characters:
F09F8F followed by BB, BC, BD, BE or BF (core.py line 583). -/
def skinModAt (l : List Char) : Bool :=
  hasPrefixCl "F09F8FB".toList l &&
    (match l.drop 7 with
     | c :: _ => c = 'B' || c = 'C' || c = 'D' || c = 'E' || c = 'F'
     | [] => false)

/-- Color-modifier match at the head of the remaining hex characters: EFB8,
one character in 8-B, and a hexadecimal character (core.py line 610). -/
def colorModAt (l : List Char) : Bool :=
  hasPrefixCl "EFB8".toList l &&
    (match l.drop 4 with
     | c1 :: c2 :: _ => isE2SecondChar c1 && isHexDigitUpper c2
     | _ => false)

/-- Candidate loop of the modern-emoji branch (core.py lines 574-595): for
each regex match in order, locate its first occurrence, extend it with a
skin-tone modifier when one follows immediately, then strictly UTF-8 decode;
on a decode failure move to the next candidate. -/
def tryF09FCandidates (hexData : List Char) : List (List Char) → Option (List Char)
  | [] => none
  | cand :: rest =>
    let basePos := firstIdx hexData cand
    let remaining := hexData.drop (basePos + cand.length)
    let seq := if skinModAt remaining then cand ++ remaining.take 8 else cand
    match utf8DecodeStrict (bytesOfHex seq) with
    | some emoji =>
      if emoji ≠ [] then some emoji else tryF09FCandidates hexData rest
    | none => tryF09FCandidates hexData rest

/-- Candidate loop of the legacy-symbol branch (core.py lines 601-622), with
the color modifier in place of the skin-tone modifier. -/
def tryE2Candidates (hexData : List Char) : List (List Char) → Option (List Char)
  | [] => none
  | cand :: rest =>
    let basePos := firstIdx hexData cand
    let remaining := hexData.drop (basePos + cand.length)
    let seq := if colorModAt remaining then cand ++ remaining.take 6 else cand
    match utf8DecodeStrict (bytesOfHex seq) with
    | some emoji =>
      if emoji ≠ [] then some emoji else tryE2Candidates hexData rest
    | none => tryE2Candidates hexData rest

/-- `_extract_reaction_emoji` (core.py lines 559-634) for a non-group chat:
hex-encode the blob, try the modern-emoji branch when F09F occurs anywhere in
the hex form, otherwise the legacy branch when E2 occurs.  For non-group
chats the decoded emoji is returned directly (group attribution reads
database and participant state and lies outside the model); an empty blob
yields an empty hex form and hence no emoji, covering the falsy guard. -/
def extractReactionEmoji (blob : List Nat) : Option (List Char) :=
  let hexData := hexOfBytes blob
  if containsSub hexData "F09F".toList then
    tryF09FCandidates hexData (findF09FMatches hexData)
  else if containsSub hexData "E2".toList then
    tryE2Candidates hexData (findE2Matches hexData)
  else none

/-! Claim theorems (first group). -/

/-- C10: contact-name cleaning never maps a non-empty name to the empty string;
for every non-empty input `clean_contact_name` returns a non-empty string, and if
removing the invisible characters and stripping whitespace would leave nothing,
the original input is returned unchanged. -/
theorem c10_clean_contact_name_nonempty (name : List Char) (h : name ≠ []) :
    cleanContactName name ≠ [] ∧
    (pyStrip (name.filter (fun c => ¬ invisibleChars.contains c)) = [] →
      cleanContactName name = name) := by
  unfold cleanContactName
  by_cases hs : pyStrip (name.filter (fun c => ¬ invisibleChars.contains c)) = [] <;>
    simp_all

/-- C10 witness: the theorem applied to the concrete name `" a "`. -/
theorem c10_clean_contact_name_nonempty_witness :
    cleanContactName " a ".toList ≠ [] ∧
    (pyStrip (" a ".toList.filter (fun c => ¬ invisibleChars.contains c)) = [] →
      cleanContactName " a ".toList = " a ".toList) :=
  c10_clean_contact_name_nonempty (" a ".toList) (by decide)

/-- Decomposition facts for a list split around one element. -/
theorem split_list_facts (a : List Char) (sep : Char) (b : List Char) :
    (a ++ sep :: b).get? a.length = some sep ∧
    (a ++ sep :: b).take a.length = a ∧
    (a ++ sep :: b).drop (a.length + 1) = b := by
  induction a with
  | nil => simp
  | cons c cs ih => simpa using ih

/-- C3 counterexample: the decoded text AB12-apostrophe-xyZ3 sanitizes to only
9 characters, failing the required length over 10, so the extractor classifies
it as a regular quote and not as a forward marker; the claim is false at this
input. -/
theorem c3_forward_marker_counterexample :
    classifyQuotedText ("AB12".toList ++ apos :: "xyZ3".toList) =
      .text ("AB12".toList ++ apos :: "xyZ3".toList) ∧
    isForwardHashText ("AB12".toList ++ apos :: "xyZ3".toList) = false := by
  decide

/-- C3 (amended): a cleaned decoded text whose sanitized form decomposes as a
2-24 character alphanumeric token, an apostrophe or backtick separator, and a
2-48 character alphanumeric-or-brace token is classified as a forward marker
PROVIDED the sanitized form is longer than 10 characters and contains a digit,
an uppercase letter or a brace; the decoded text AB123-apostrophe-xyZ678 is so
classified, while the decoded text hello there friend is a regular quote. -/
theorem c3_forward_marker_classification :
    (∀ (text a : List Char) (sep : Char) (b : List Char),
      sanitizeForHash text = a ++ sep :: b →
      (sep = apos ∨ sep = btick) →
      a.all isAsciiAlnum = true → 2 ≤ a.length → a.length ≤ 24 →
      b.all isAlnumBrace = true → 2 ≤ b.length → b.length ≤ 48 →
      (a ++ sep :: b).length > 10 →
      (a ++ sep :: b).any isUpperDigitBrace = true →
      classifyQuotedText text = .forward (a ++ sep :: b)) ∧
    classifyQuotedText ("AB123".toList ++ apos :: "xyZ678".toList) =
      .forward ("AB123".toList ++ apos :: "xyZ678".toList) ∧
    classifyQuotedText "hello there friend".toList =
      .text "hello there friend".toList := by
  refine ⟨?_, by decide, by decide⟩
  intro text a sep b hsan hsep ha ha2 ha24 hb hb2 hb48 hlen hany
  obtain ⟨hget, htake, hdrop⟩ := split_list_facts a sep b
  have hlenb : (a ++ sep :: b).length - (a.length + 1) = b.length := by
    simp only [List.length_append, List.length_cons]
    omega
  have hsplit : hashSplitAt (a ++ sep :: b) a.length = true := by
    simp only [hashSplitAt, hget, htake, hdrop, hlenb]
    rcases hsep with h | h <;>
      simp [h, ha, hb, ha2, ha24, hb2, hb48]
  have hshape : matchesHashShape (a ++ sep :: b) = true := by
    unfold matchesHashShape
    rw [List.any_eq_true]
    refine ⟨a.length, List.mem_range.mpr ?_, hsplit⟩
    simp only [List.length_append, List.length_cons]
    omega
  have hfwd : isForwardHashText text = true := by
    have h10 : 10 < a.length + (b.length + 1) := by
      have h := hlen
      simp only [List.length_append, List.length_cons] at h
      omega
    unfold isForwardHashText
    rw [hsan]
    simp [hshape, hany, h10, List.length_append]
  unfold classifyQuotedText
  rw [hfwd, hsan]
  simp

/-- C3 witness: the amended theorem applied to the concrete decomposition of
AB123-apostrophe-xyZ678. -/
theorem c3_forward_marker_classification_witness :
    classifyQuotedText ("AB123".toList ++ apos :: "xyZ678".toList) =
      .forward ("AB123".toList ++ apos :: "xyZ678".toList) :=
  c3_forward_marker_classification.1
    ("AB123".toList ++ apos :: "xyZ678".toList) "AB123".toList apos "xyZ678".toList
    (by decide) (Or.inl rfl) (by decide) (by decide) (by decide)
    (by decide) (by decide) (by decide) (by decide) (by decide)

/-- Advancing property of the varint loop: on a non-empty suffix the position
strictly advances. -/
theorem decodeVarintAux_advance :
    ∀ (l : List Nat) (v s p : Nat), l ≠ [] → p + 1 ≤ (decodeVarintAux l v s p).2 := by
  intro l
  induction l with
  | nil => intro v s p h; exact absurd rfl h
  | cons b rest ih =>
    intro v s p _
    simp only [decodeVarintAux]
    split
    · simp
    · split
      · simp
      · cases rest with
        | nil => simp [decodeVarintAux]
        | cons c cs =>
          have := ih (v ||| ((b &&& 0x7F) <<< s)) (s + 7) (p + 1) (by simp)
          omega

/-- Fuel-independence of the tag-1 scan: any fuel at least the remaining loop
span gives the same result (the loop terminates within that many steps). -/
theorem tag1ScanAux_fuel (blob : List Nat) :
    ∀ f g i, blob.length - 3 - i ≤ f → blob.length - 3 - i ≤ g →
      tag1ScanAux blob f i = tag1ScanAux blob g i := by
  intro f
  induction f with
  | zero =>
    intro g i hf hg
    have hi : ¬ i < blob.length - 3 := by omega
    cases g with
    | zero => rfl
    | succ g => simp [tag1ScanAux, hi]
  | succ f ih =>
    intro g i hf hg
    cases g with
    | zero =>
      have hi : ¬ i < blob.length - 3 := by omega
      simp [tag1ScanAux, hi]
    | succ g =>
      by_cases hi : i < blob.length - 3
      · simp only [tag1ScanAux, if_pos hi]
        cases htry : tag1TryAt blob i with
        | some r => rfl
        | none => exact ih g (i + 1) (by omega) (by omega)
      · simp [tag1ScanAux, hi]

/-- The fallback scan step strictly advances the index. -/
theorem fallbackStep_advance (blob : List Nat) (i : Nat) :
    i < (fallbackStep blob i).1 := by
  simp only [fallbackStep]
  split_ifs <;> dsimp only <;> omega

/-- Fuel-independence of the fallback scan: any fuel at least the remaining
loop span gives the same result. -/
theorem fallbackScanAux_fuel (blob : List Nat) :
    ∀ f g i best, blob.length - 2 - i ≤ f → blob.length - 2 - i ≤ g →
      fallbackScanAux blob f i best = fallbackScanAux blob g i best := by
  intro f
  induction f with
  | zero =>
    intro g i best hf hg
    have hi : ¬ i < blob.length - 2 := by omega
    cases g with
    | zero => rfl
    | succ g => simp [fallbackScanAux, hi]
  | succ f ih =>
    intro g i best hf hg
    cases g with
    | zero =>
      have hi : ¬ i < blob.length - 2 := by omega
      simp [fallbackScanAux, hi]
    | succ g =>
      by_cases hi : i < blob.length - 2
      · simp only [fallbackScanAux, if_pos hi]
        have hadv := fallbackStep_advance blob i
        exact ih g (fallbackStep blob i).1 _ (by omega) (by omega)
      · simp [fallbackScanAux, hi]

/-- C2 counterexample: in the fallback scan, the record starting at index 0 of
the blob 12 7f 00 00 declares length 127, which does not fit the 4-byte blob;
the claim says such a record is skipped by advancing one byte, but the scan
advances the index from 0 to 129 (the Python increment adds the absolute
data-start position plus the declared length). -/
theorem c2_nonfit_skip_counterexample :
    (fallbackStep [0x12, 0x7F, 0x00, 0x00] 0).1 = 129 ∧
    ¬ ((0 : Nat) + 2 + 0x7F ≤ ([0x12, 0x7F, 0x00, 0x00] : List Nat).length) ∧
    (129 : Nat) ≠ 0 + 1 := by
  decide

/-- C2 (amended): the varint decoder and the two tag-length-value scanning
loops of the quoted-text extractor terminate on every byte sequence and raise
no exception: the varint position strictly advances on a non-empty remainder
and is unchanged past the end of the blob; the primary tag-1 scan advances by
exactly one byte whenever its attempt at the current index fails (in
particular when a record does not fit in the remaining blob); the fallback
scan strictly advances at every index — but a header with tag at most four
(other than one) and a single-byte length advances by data-start plus declared
length whether or not the record fits, not by a single byte; consequently both
scans are fuel-independent once the fuel covers the remaining span, and the
whole extraction returns an optional field (possibly none). -/
theorem c2_extractor_termination_and_advance :
    (∀ (blob : List Nat) (pos : Nat), pos < blob.length →
      pos + 1 ≤ (decodeVarint blob pos).2) ∧
    (∀ (blob : List Nat) (pos : Nat), blob.length ≤ pos →
      (decodeVarint blob pos).2 = pos) ∧
    (∀ (blob : List Nat) (fuel i : Nat), i < blob.length - 3 →
      tag1TryAt blob i = none →
      tag1ScanAux blob (fuel + 1) i = tag1ScanAux blob fuel (i + 1)) ∧
    (∀ (blob : List Nat) (i : Nat), i < (fallbackStep blob i).1) ∧
    (∀ (blob : List Nat) (f g i : Nat),
      blob.length - 3 - i ≤ f → blob.length - 3 - i ≤ g →
      tag1ScanAux blob f i = tag1ScanAux blob g i) ∧
    (∀ (blob : List Nat) (f g i : Nat) (best : Option (List Char)),
      blob.length - 2 - i ≤ f → blob.length - 2 - i ≤ g →
      fallbackScanAux blob f i best = fallbackScanAux blob g i best) := by
  refine ⟨?_, ?_, ?_, fun blob i => fallbackStep_advance blob i,
    fun blob => tag1ScanAux_fuel blob, fun blob => fallbackScanAux_fuel blob⟩
  · intro blob pos hpos
    unfold decodeVarint
    apply decodeVarintAux_advance
    simp only [ne_eq, List.drop_eq_nil_iff]
    omega
  · intro blob pos hpos
    unfold decodeVarint
    rw [List.drop_eq_nil_of_le hpos]
    rfl
  · intro blob fuel i hi htry
    simp [tag1ScanAux, hi, htry]

/-- C2 witness: the amended theorem instantiated at concrete blobs and
indices. -/
theorem c2_extractor_termination_and_advance_witness :
    (0 : Nat) + 1 ≤ (decodeVarint [0x85, 0x03] 0).2 ∧
    (decodeVarint [0x85, 0x03] 5).2 = 5 ∧
    tag1ScanAux [0x00, 0x01, 0x02, 0x03, 0x04] (7 + 1) 0 =
      tag1ScanAux [0x00, 0x01, 0x02, 0x03, 0x04] 7 1 ∧
    (0 : Nat) < (fallbackStep [0x12, 0x7F, 0x00, 0x00] 0).1 ∧
    tag1ScanAux [0x00, 0x01, 0x02, 0x03, 0x04] 9 0 =
      tag1ScanAux [0x00, 0x01, 0x02, 0x03, 0x04] 22 0 ∧
    fallbackScanAux [0x00, 0x01, 0x02] 5 0 none =
      fallbackScanAux [0x00, 0x01, 0x02] 6 0 none :=
  ⟨c2_extractor_termination_and_advance.1 [0x85, 0x03] 0 (by decide),
   c2_extractor_termination_and_advance.2.1 [0x85, 0x03] 5 (by decide),
   c2_extractor_termination_and_advance.2.2.1 [0x00, 0x01, 0x02, 0x03, 0x04] 7 0
     (by decide) (by decide),
   c2_extractor_termination_and_advance.2.2.2.1 [0x12, 0x7F, 0x00, 0x00] 0,
   c2_extractor_termination_and_advance.2.2.2.2.1 [0x00, 0x01, 0x02, 0x03, 0x04] 9 22 0
     (by decide) (by decide),
   c2_extractor_termination_and_advance.2.2.2.2.2 [0x00, 0x01, 0x02] 5 6 0 none
     (by decide) (by decide)⟩

/-- C5 (failing input evidence): for a group whose members are named
"Jean Dupont" and "Jeanne Dubois" (colliding base initials "JD"), the initials
resolver assigns BOTH members the identical label "JeD": the conflict branch
takes two letters of the first name, and both first names start with "Je", so the
resolved labels are not distinct and do not map uniquely back to their owners. -/
theorem c5_initials_collision_not_resolved :
    getGroupUniqueInitials
        [("jid1".toList, "Jean Dupont".toList), ("jid2".toList, "Jeanne Dubois".toList)] =
      [("jid1".toList, "JeD".toList), ("jid2".toList, "JeD".toList)] := by
  decide

/-- C4: in fragment-reconstruction citation matching, the candidate time
window compares the integer delta in seconds against 48*3600 with strict
greater-than for rejection: a candidate from the other sender exactly 48 hours
and 1 second (172801 seconds) before the reply is rejected, one exactly
47 hours 59 minutes (172740 seconds) before is eligible, and in general an
earlier candidate is rejected by the window exactly when the delta exceeds
172800 seconds. -/
theorem c4_forty_eight_hour_window (cand msg : Message) (t2 : Int)
    (hs : cand.isFromMe ≠ msg.isFromMe) (hd : msg.date = some t2) :
    (cand.date = some (t2 - 172801) → candidateCheck cand msg = none) ∧
    (cand.date = some (t2 - 172740) → candidateCheck cand msg = some 172740) ∧
    (∀ t1 : Int, cand.date = some t1 → t1 < t2 →
      (candidateCheck cand msg = none ↔ t2 - t1 > 48 * 3600)) := by
  have hbeq : (cand.isFromMe == msg.isFromMe) = false := by
    simp [hs]
  refine ⟨?_, ?_, ?_⟩
  · intro hc
    have h1 : ¬ (t2 - 172801 ≥ t2) := by omega
    have h2 : t2 - (t2 - 172801) > 48 * 3600 := by omega
    simp [candidateCheck, hbeq, hc, hd, h1, h2]
  · intro hc
    have h1 : ¬ (t2 - 172740 ≥ t2) := by omega
    have h2 : ¬ (t2 - (t2 - 172740) > 48 * 3600) := by omega
    have h3 : t2 - (t2 - 172740) = 172740 := by omega
    simp [candidateCheck, hbeq, hc, hd, h1, h2, h3]
  · intro t1 hc hlt
    have h1 : ¬ (t1 ≥ t2) := by omega
    by_cases h2 : t2 - t1 > 48 * 3600
    · simp [candidateCheck, hbeq, hc, hd, h1, h2]
      omega
    · simp only [candidateCheck, hbeq, hc, hd]
      simp [h1, h2]
      omega

/-- C4 witness: the theorem applied at reply time 200000 with candidates at
times 27199 (rejected) and 27260 (eligible with delta 172740). -/
theorem c4_forty_eight_hour_window_witness :
    candidateCheck ⟨1, some 27199, ['x'], false, none, none, 0, none, none, false⟩
        ⟨2, some 200000, ['y'], true, none, none, 0, none, none, false⟩ = none ∧
    candidateCheck ⟨1, some 27260, ['x'], false, none, none, 0, none, none, false⟩
        ⟨2, some 200000, ['y'], true, none, none, 0, none, none, false⟩ = some 172740 :=
  ⟨(c4_forty_eight_hour_window _ _ 200000 (by decide) rfl).1 (by decide),
   (c4_forty_eight_hour_window _ _ 200000 (by decide) rfl).2.1 (by decide)⟩

/-- C7 counterexample: a row with NULL flags whose content contains the word
forwarded is flagged as forwarded by the core pipeline although its flag bits
(treated as 0) do not contain the 0x180 pattern, so the if-and-only-if claim
is false at this input. -/
theorem c7_forwarded_flag_counterexample :
    (processMessageRow (fun _ => none) (fun _ => none)
        ⟨1, some 100, some "forwarded".toList, false, some 0, none, none, none⟩).isForwarded
      = true ∧
    (((0 : Nat) &&& 0x180 == 0x180) = false) := by
  constructor
  · rfl
  · decide

/-- C7 (amended): the core pipeline sets the forwarded flag exactly when the
two forward bits of the flags bitfield (NULL treated as 0) are both set OR the
lowercased content contains a forward indicator; the enhanced exporter sets it
by the pure bit test alone. -/
theorem c7_forwarded_flag (media : Nat → Option MediaItem)
    (parentMediaOf : Nat → Option Nat) (row : RowData) :
    (processMessageRow media parentMediaOf row).isForwarded =
      ((row.flags.getD 0 &&& 0x180 == 0x180) ||
        checkForwardedContent (row.content.getD [])) ∧
    ∀ flags : Option Nat, isForwardedEnhance flags = (flags.getD 0 &&& 0x180 == 0x180) :=
  ⟨rfl, fun _ => rfl⟩

/-- Post-processing preserves the message count (both passes are maps). -/
theorem postProcessMessages_length (media : Nat → Option MediaItem)
    (msgs : List Message) :
    (postProcessMessages media msgs).length = msgs.length := by
  simp [postProcessMessages, parseMetadataReplies, resolveParentQuotes]

/-- A fully successful row loop emits one message per row. -/
theorem processAllRows_ok_length (process : RowData → Except Unit Message) :
    ∀ (rows : List RowData) (msgs : List Message),
      processAllRows process rows = .ok msgs → msgs.length = rows.length := by
  intro rows
  induction rows with
  | nil =>
    intro msgs h
    simp only [processAllRows] at h
    cases h
    rfl
  | cons r rest ih =>
    intro msgs h
    unfold processAllRows at h
    cases hp : process r <;> rw [hp] at h
    case error e => cases h
    case ok m =>
      cases hrest : processAllRows process rest <;> rw [hrest] at h
      case error e => cases h
      case ok ms =>
        cases h
        simp [ih ms hrest]

/-- A failing row anywhere in the batch fails the whole loop. -/
theorem processAllRows_error (process : RowData → Except Unit Message) :
    ∀ rows : List RowData, (∃ r ∈ rows, process r = .error ()) →
      processAllRows process rows = .error () := by
  intro rows
  induction rows with
  | nil =>
    rintro ⟨r, hr, _⟩
    simp at hr
  | cons r0 rest ih =>
    rintro ⟨r, hr, herr⟩
    unfold processAllRows
    rcases List.mem_cons.mp hr with rfl | hmem
    · rw [herr]
    · cases hp : process r0 with
      | error e => rfl
      | ok m => rw [ih ⟨r, hmem, herr⟩]

/-- C8 (amended): a row-processing exception is caught at batch granularity,
not row granularity: if processing any fetched row raises, the whole batch is
aborted and the empty message list is returned, so the failing row is not
emitted and the output count is not the fetched-row count; only when no row
raises does every row yield exactly one message and the output count equal
the row count. -/
theorem c8_batch_abort_on_row_error (media : Nat → Option MediaItem)
    (process : RowData → Except Unit Message) (rows : List RowData) :
    ((∃ r ∈ rows, process r = .error ()) →
      getConversationMessagesTry media process rows = []) ∧
    (∀ msgs : List Message, processAllRows process rows = .ok msgs →
      (getConversationMessagesTry media process rows).length = rows.length) := by
  constructor
  · intro hex
    unfold getConversationMessagesTry
    rw [processAllRows_error process rows hex]
  · intro msgs h
    unfold getConversationMessagesTry
    rw [h, postProcessMessages_length]
    exact processAllRows_ok_length process rows msgs h

/-- C8 witness: the amended theorem applied to a one-row batch whose
processing fails (empty output) and to the same batch processed by the total
row model (one output message). -/
theorem c8_batch_abort_on_row_error_witness :
    getConversationMessagesTry (fun _ => none) (fun _ => .error ())
        [⟨1, some 100, some "hi".toList, false, some 0, none, none, none⟩] = [] ∧
    (getConversationMessagesTry (fun _ => none)
        (fun r => .ok (processMessageRow (fun _ => none) (fun _ => none) r))
        [⟨1, some 100, some "hi".toList, false, some 0, none, none, none⟩]).length = 1 :=
  ⟨(c8_batch_abort_on_row_error (fun _ => none) (fun _ => .error ()) _).1
      ⟨_, List.mem_singleton.mpr rfl, rfl⟩,
   (c8_batch_abort_on_row_error (fun _ => none) _ _).2 _ rfl⟩

/-- C8 counterexample: with a single fetched row whose processing raises, the
batch is aborted and the output is empty rather than containing the row with
nulled enrichment; the output count 0 differs from the fetched-row count 1. -/
theorem c8_row_error_counterexample :
    getConversationMessagesTry (fun _ => none) (fun _ => .error ())
        [⟨1, some 100, some "hi".toList, false, some 0, none, none, none⟩] = [] ∧
    ([⟨1, some 100, some "hi".toList, false, some 0, none, none, none⟩] :
        List RowData).length = 1 := by
  constructor
  · rfl
  · rfl

/-- Invariant of the duplicate-forward removal: the output is pairwise
key-distinct among forwarded messages, and no forwarded output message has a
key already in the seen set. -/
theorem removeDuplicateForwards_invariant :
    ∀ (msgs : List EMsg) (seen : List (Option (List Char) × Option Int)),
      (removeDuplicateForwards msgs seen).Pairwise
        (fun a b => a.isForwarded = true → b.isForwarded = true →
          (a.content, a.date) ≠ (b.content, b.date)) ∧
      ∀ m ∈ removeDuplicateForwards msgs seen, m.isForwarded = true →
        (m.content, m.date) ∉ seen := by
  intro msgs
  induction msgs with
  | nil => intro seen; simp [removeDuplicateForwards]
  | cons m rest ih =>
    intro seen
    by_cases hf : m.isForwarded = true
    · by_cases hseen : (m.content, m.date) ∈ seen
      · have hred : removeDuplicateForwards (m :: rest) seen =
            removeDuplicateForwards rest seen := by
          simp [removeDuplicateForwards, hf, hseen]
        rw [hred]
        exact ih seen
      · have hred : removeDuplicateForwards (m :: rest) seen =
            m :: removeDuplicateForwards rest ((m.content, m.date) :: seen) := by
          simp [removeDuplicateForwards, hf, hseen]
        rw [hred]
        obtain ⟨ihp, ihs⟩ := ih ((m.content, m.date) :: seen)
        constructor
        · refine List.pairwise_cons.mpr ⟨?_, ihp⟩
          intro b hb _ hbf
          have hnotin := ihs b hb hbf
          simp only [List.mem_cons] at hnotin
          intro hkey
          exact hnotin (Or.inl hkey.symm)
        · intro x hx hxf
          rcases List.mem_cons.mp hx with rfl | hx2
          · exact hseen
          · have hnotin := ihs x hx2 hxf
            intro hin
            exact hnotin (List.mem_cons_of_mem _ hin)
    · have hred : removeDuplicateForwards (m :: rest) seen =
          m :: removeDuplicateForwards rest seen := by
        simp [removeDuplicateForwards, hf]
      rw [hred]
      obtain ⟨ihp, ihs⟩ := ih seen
      constructor
      · refine List.pairwise_cons.mpr ⟨?_, ihp⟩
        intro b hb hmf _
        exact absurd hmf hf
      · intro x hx hxf
        rcases List.mem_cons.mp hx with rfl | hx2
        · exact absurd hxf hf
        · exact ihs x hx2 hxf

/-- The duplicate-forward removal returns a subsequence of its input. -/
theorem removeDuplicateForwards_sublist :
    ∀ (msgs : List EMsg) (seen : List (Option (List Char) × Option Int)),
      (removeDuplicateForwards msgs seen).Sublist msgs := by
  intro msgs
  induction msgs with
  | nil => intro seen; simp [removeDuplicateForwards]
  | cons m rest ih =>
    intro seen
    by_cases hf : m.isForwarded = true
    · by_cases hseen : (m.content, m.date) ∈ seen
      · have hred : removeDuplicateForwards (m :: rest) seen =
            removeDuplicateForwards rest seen := by
          simp [removeDuplicateForwards, hf, hseen]
        rw [hred]
        exact (ih seen).cons m
      · have hred : removeDuplicateForwards (m :: rest) seen =
            m :: removeDuplicateForwards rest ((m.content, m.date) :: seen) := by
          simp [removeDuplicateForwards, hf, hseen]
        rw [hred]
        exact (ih _).cons₂ m
    · have hred : removeDuplicateForwards (m :: rest) seen =
          m :: removeDuplicateForwards rest seen := by
        simp [removeDuplicateForwards, hf]
      rw [hred]
      exact (ih seen).cons₂ m

/-- Non-forwarded messages always survive the duplicate-forward removal. -/
theorem removeDuplicateForwards_keeps_nonforwarded :
    ∀ (msgs : List EMsg) (seen : List (Option (List Char) × Option Int))
      (m : EMsg), m ∈ msgs → m.isForwarded = false →
      m ∈ removeDuplicateForwards msgs seen := by
  intro msgs
  induction msgs with
  | nil => intro seen m hm; simp at hm
  | cons m0 rest ih =>
    intro seen m hm hmf
    rcases List.mem_cons.mp hm with rfl | hm2
    · have hf : ¬ (m.isForwarded = true) := by simp [hmf]
      have hred : removeDuplicateForwards (m :: rest) seen =
          m :: removeDuplicateForwards rest seen := by
        simp [removeDuplicateForwards, hf]
      rw [hred]
      exact List.mem_cons_self m _
    · by_cases hf : m0.isForwarded = true
      · by_cases hseen : (m0.content, m0.date) ∈ seen
        · have hred : removeDuplicateForwards (m0 :: rest) seen =
              removeDuplicateForwards rest seen := by
            simp [removeDuplicateForwards, hf, hseen]
          rw [hred]
          exact ih seen m hm2 hmf
        · have hred : removeDuplicateForwards (m0 :: rest) seen =
              m0 :: removeDuplicateForwards rest ((m0.content, m0.date) :: seen) := by
            simp [removeDuplicateForwards, hf, hseen]
          rw [hred]
          exact List.mem_cons_of_mem _ (ih _ m hm2 hmf)
      · have hred : removeDuplicateForwards (m0 :: rest) seen =
            m0 :: removeDuplicateForwards rest seen := by
          simp [removeDuplicateForwards, hf]
        rw [hred]
        exact List.mem_cons_of_mem _ (ih seen m hm2 hmf)

/-- A message dropped by the duplicate-forward removal is forwarded, and its
key is either already in the seen set or carried by a forwarded survivor. -/
theorem removeDuplicateForwards_dropped :
    ∀ (msgs : List EMsg) (seen : List (Option (List Char) × Option Int))
      (m : EMsg), m ∈ msgs → m ∉ removeDuplicateForwards msgs seen →
      m.isForwarded = true ∧
        ((m.content, m.date) ∈ seen ∨
          ∃ m2 ∈ removeDuplicateForwards msgs seen, m2.isForwarded = true ∧
            (m2.content, m2.date) = (m.content, m.date)) := by
  intro msgs
  induction msgs with
  | nil => intro seen m hm; simp at hm
  | cons m0 rest ih =>
    intro seen m hm hnot
    by_cases hf : m0.isForwarded = true
    · by_cases hseen : (m0.content, m0.date) ∈ seen
      · have hred : removeDuplicateForwards (m0 :: rest) seen =
            removeDuplicateForwards rest seen := by
          simp [removeDuplicateForwards, hf, hseen]
        rw [hred] at hnot ⊢
        rcases List.mem_cons.mp hm with rfl | hm2
        · exact ⟨hf, Or.inl hseen⟩
        · exact ih seen m hm2 hnot
      · have hred : removeDuplicateForwards (m0 :: rest) seen =
            m0 :: removeDuplicateForwards rest ((m0.content, m0.date) :: seen) := by
          simp [removeDuplicateForwards, hf, hseen]
        rw [hred] at hnot ⊢
        rcases List.mem_cons.mp hm with rfl | hm2
        · exact absurd (List.mem_cons_self m _) hnot
        · have hnot2 : m ∉ removeDuplicateForwards rest ((m0.content, m0.date) :: seen) :=
            fun hin => hnot (List.mem_cons_of_mem _ hin)
          obtain ⟨hmf, hor⟩ := ih _ m hm2 hnot2
          refine ⟨hmf, ?_⟩
          rcases hor with hin | ⟨m2, hm2in, hm2f, hm2key⟩
          · rcases List.mem_cons.mp hin with hkey | hin2
            · exact Or.inr ⟨m0, List.mem_cons_self _ _, hf, hkey.symm⟩
            · exact Or.inl hin2
          · exact Or.inr ⟨m2, List.mem_cons_of_mem _ hm2in, hm2f, hm2key⟩
    · have hred : removeDuplicateForwards (m0 :: rest) seen =
          m0 :: removeDuplicateForwards rest seen := by
        simp [removeDuplicateForwards, hf]
      rw [hred] at hnot ⊢
      rcases List.mem_cons.mp hm with rfl | hm2
      · exact absurd (List.mem_cons_self m _) hnot
      · have hnot2 : m ∉ removeDuplicateForwards rest seen :=
          fun hin => hnot (List.mem_cons_of_mem _ hin)
        obtain ⟨hmf, hor⟩ := ih seen m hm2 hnot2
        refine ⟨hmf, ?_⟩
        rcases hor with hin | ⟨m2, hm2in, hm2f, hm2key⟩
        · exact Or.inl hin
        · exact Or.inr ⟨m2, List.mem_cons_of_mem _ hm2in, hm2f, hm2key⟩

/-- C6 counterexample: a forwarded message preceded by a NON-forwarded
message with identical content and timestamp is not suppressed, because only
earlier forwarded messages record deduplication keys; the claim as stated
(any earlier message with identical content and timestamp suppresses the
later forwarded one) is false at this input. -/
theorem c6_forward_dedup_counterexample :
    removeDuplicateForwards
        [⟨1, some "dup".toList, some 100, false⟩,
         ⟨2, some "dup".toList, some 100, true⟩] [] =
      [⟨1, some "dup".toList, some 100, false⟩,
       ⟨2, some "dup".toList, some 100, true⟩] := by
  decide

/-- C6 (amended): in the final message sequence of one enhanced export, no
two messages flagged as forwarded share an identical (content, timestamp)
pair; the output is a subsequence of the input; non-forwarded messages are
never deleted; and a message deleted by the pass is forwarded with its
(content, timestamp) key carried by an earlier surviving FORWARDED message
(an earlier non-forwarded duplicate does not suppress — see the
counterexample). -/
theorem c6_forward_dedup (msgs : List EMsg) :
    (removeDuplicateForwards msgs []).Sublist msgs ∧
    (removeDuplicateForwards msgs []).Pairwise
      (fun a b => a.isForwarded = true → b.isForwarded = true →
        (a.content, a.date) ≠ (b.content, b.date)) ∧
    (∀ m ∈ msgs, m.isForwarded = false → m ∈ removeDuplicateForwards msgs []) ∧
    (∀ m ∈ msgs, m ∉ removeDuplicateForwards msgs [] →
      m.isForwarded = true ∧
        ∃ m2 ∈ removeDuplicateForwards msgs [], m2.isForwarded = true ∧
          (m2.content, m2.date) = (m.content, m.date)) := by
  refine ⟨removeDuplicateForwards_sublist msgs [],
    (removeDuplicateForwards_invariant msgs []).1,
    fun m hm hf => removeDuplicateForwards_keeps_nonforwarded msgs [] m hm hf,
    fun m hm hnot => ?_⟩
  obtain ⟨hf, hor⟩ := removeDuplicateForwards_dropped msgs [] m hm hnot
  rcases hor with hin | hex
  · simp at hin
  · exact ⟨hf, hex⟩

/-- C6 witness: the amended theorem applied to a two-message export where an
identical forwarded duplicate follows a forwarded original. -/
theorem c6_forward_dedup_witness :
    (⟨2, some "a".toList, some 5, true⟩ : EMsg).isForwarded = true ∧
    ∃ m2 ∈ removeDuplicateForwards
        [⟨1, some "a".toList, some 5, true⟩, ⟨2, some "a".toList, some 5, true⟩] [],
      m2.isForwarded = true ∧
        (m2.content, m2.date) =
          ((⟨2, some "a".toList, some 5, true⟩ : EMsg).content,
           (⟨2, some "a".toList, some 5, true⟩ : EMsg).date) :=
  (c6_forward_dedup
      [⟨1, some "a".toList, some 5, true⟩, ⟨2, some "a".toList, some 5, true⟩]).2.2.2
    ⟨2, some "a".toList, some 5, true⟩ (by decide) (by decide)

/-- C1 counterexample: a reply whose parent is present with non-empty content
but which also carries a media item whose metadata blob decodes to a quote:
the per-row metadata extraction runs FIRST and its result is kept, so after
the two-pass enrichment the quoted text is the blob text, which is not the
50-character parent prefix (nor any prefix of the parent content). -/
theorem c1_parent_quote_counterexample :
    (getConversationMessages
        (fun n => if n = 10 then
          some ⟨none, none,
            some (0x0a :: 30 :: ("some quoted text from the blob".toList.map Char.toNat))⟩
        else none)
        (fun _ => none)
        [⟨1, some 100, some "Hello parent message content".toList, false,
          some 0, none, none, none⟩,
         ⟨2, some 200, some "reply".toList, true, some 0, some 1, none,
          some 10⟩]).map Message.quotedText =
      [none, some "some quoted text from the blob".toList] ∧
    "some quoted text from the blob".toList ≠
      (if "Hello parent message content".toList.length > 50 then
        "Hello parent message content".toList.take 50 ++ "...".toList
      else "Hello parent message content".toList.take 50) := by
  constructor
  · decide
  · decide

/-- C1 (amended): for every message of the loaded batch whose quoted text was
NOT already set by the per-row metadata extraction, whose parent reference is
truthy and resolves in the loaded message set to a parent with non-empty
content, the two-pass enrichment sets its quoted text to the parent content
truncated to the 50-character prefix with an ellipsis marker appended when the
content is longer — a non-empty prefix of the parent content.  (As stated the
claim fails because the per-row metadata extraction runs first and its result
is kept; see the counterexample.) -/
theorem c1_parent_quote_prefix (media : Nat → Option MediaItem)
    (msgs : List Message) (i : Nat) (hi : i < msgs.length)
    (pid : Nat) (parent : Message)
    (hq : pyTruthyStr msgs[i].quotedText = false)
    (hp : msgs[i].parentMessageId = some pid)
    (hpid : pid ≠ 0)
    (hl : msgLookup msgs pid = some parent)
    (hc : parent.content ≠ []) :
    ∃ m, (postProcessMessages media msgs)[i]? = some m ∧
      m.quotedText = some (if parent.content.length > 50 then
        parent.content.take 50 ++ "...".toList else parent.content.take 50) := by
  have hgeti : msgs[i]? = some msgs[i] := List.getElem?_eq_getElem hi
  have hpt : pyTruthyNat (some pid) = true := by simp [pyTruthyNat, hpid]
  set Q : List Char := (if parent.content.length > 50 then
    parent.content.take 50 ++ "...".toList else parent.content.take 50) with hQ
  have hstep1 : (resolveParentQuotes msgs)[i]? =
      some { msgs[i] with quotedText := some Q } := by
    unfold resolveParentQuotes
    rw [List.getElem?_map, hgeti, Option.map_some']
    simp [hq, hp, hpt, hl, hc, hQ]
  have htgt : isReplyTarget { msgs[i] with quotedText := some Q } = false := by
    simp [isReplyTarget, pyTruthyNat, hp, hpid]
  refine ⟨{ msgs[i] with quotedText := some Q }, ?_, rfl⟩
  unfold postProcessMessages parseMetadataReplies
  rw [List.getElem?_map, hstep1, Option.map_some']
  rw [htgt]
  simp

/-- C1 witness: the amended theorem applied to a two-message batch where the
second message replies to the first with no metadata quote of its own. -/
theorem c1_parent_quote_prefix_witness :
    ∃ m, (postProcessMessages (fun _ => none)
        [⟨1, some 100, "Hello".toList, false, some 0, none, 0, none, none, false⟩,
         ⟨2, some 200, "reply".toList, true, some 0, some 1, 0, none, none,
          false⟩])[1]? = some m ∧
      m.quotedText = some (if "Hello".toList.length > 50 then
        "Hello".toList.take 50 ++ "...".toList else "Hello".toList.take 50) :=
  c1_parent_quote_prefix (fun _ => none)
    [⟨1, some 100, "Hello".toList, false, some 0, none, 0, none, none, false⟩,
     ⟨2, some 200, "reply".toList, true, some 0, some 1, 0, none, none, false⟩]
    1 (by decide) 1
    ⟨1, some 100, "Hello".toList, false, some 0, none, 0, none, none, false⟩
    (by decide) (by decide) (by decide) (by decide) (by decide)

/-- A true prefix test forces the take of the needle length. -/
theorem hasPrefixCl_take :
    ∀ (needle l : List Char), hasPrefixCl needle l = true →
      l.take needle.length = needle := by
  intro needle
  induction needle with
  | nil => intro l _; simp
  | cons b bs ih =>
    intro l h
    cases l with
    | nil => simp [hasPrefixCl] at h
    | cons a as =>
      simp only [hasPrefixCl, Bool.and_eq_true, decide_eq_true_eq] at h
      obtain ⟨hba, hrest⟩ := h
      subst hba
      simp [List.take_succ_cons, ih as hrest]

/-- A non-empty modern-emoji match list forces the F09F containment test. -/
theorem findF09FMatchesAux_contains :
    ∀ (fuel : Nat) (l : List Char), findF09FMatchesAux fuel l ≠ [] →
      containsSub l "F09F".toList = true := by
  intro fuel
  induction fuel with
  | zero => intro l h; simp [findF09FMatchesAux] at h
  | succ fuel ih =>
    intro l h
    cases l with
    | nil => simp [findF09FMatchesAux] at h
    | cons c rest =>
      by_cases hm : f09fMatchAt (c :: rest) = true
      · have hpre : hasPrefixCl "F09F".toList (c :: rest) = true := by
          simp only [f09fMatchAt, Bool.and_eq_true] at hm
          exact hm.1.1
        simp only [containsSub, Bool.or_eq_true]
        exact Or.inl hpre
      · have h2 : findF09FMatchesAux fuel rest ≠ [] := by
          simpa [findF09FMatchesAux, hm] using h
        simp only [containsSub, Bool.or_eq_true]
        exact Or.inr (ih rest h2)

/-- C9 counterexample: a reaction blob whose hex form has F09F9882 as its
first modern-emoji match but is immediately followed by the medium skin-tone
modifier decodes to the two-code-point sequence (face plus modifier), not
exactly to the single face emoji, so the claim as stated is false at this
input. -/
theorem c9_reaction_counterexample :
    (findF09FMatches (hexOfBytes [0xF0, 0x9F, 0x98, 0x82, 0xF0, 0x9F, 0x8F, 0xBD])).head? =
      some "F09F9882".toList ∧
    extractReactionEmoji [0xF0, 0x9F, 0x98, 0x82, 0xF0, 0x9F, 0x8F, 0xBD] =
      some [Char.ofNat 0x1F602, Char.ofNat 0x1F3FD] ∧
    (some [Char.ofNat 0x1F602, Char.ofNat 0x1F3FD] : Option (List Char)) ≠
      some [Char.ofNat 0x1F602] := by
  refine ⟨by decide, by decide, by decide⟩

/-- C9 (amended): for every non-group reaction blob whose hexadecimal form has
F09F9882 as its first modern-emoji match AND no skin-tone modifier directly
after it, decoding returns exactly the laughing-face emoji; and for every blob
whose first match is F09F918D followed immediately by the modifier F09F8FBD,
decoding returns the combined two-code-point emoji (base plus modifier), not
the base alone. -/
theorem c9_reaction_decoding :
    (∀ blob : List Nat,
      (findF09FMatches (hexOfBytes blob)).head? = some "F09F9882".toList →
      skinModAt ((hexOfBytes blob).drop
        (firstIdx (hexOfBytes blob) "F09F9882".toList +
          ("F09F9882".toList).length)) = false →
      extractReactionEmoji blob = some [Char.ofNat 0x1F602]) ∧
    (∀ blob : List Nat,
      (findF09FMatches (hexOfBytes blob)).head? = some "F09F918D".toList →
      hasPrefixCl "F09F8FBD".toList ((hexOfBytes blob).drop
        (firstIdx (hexOfBytes blob) "F09F918D".toList +
          ("F09F918D".toList).length)) = true →
      extractReactionEmoji blob = some [Char.ofNat 0x1F44D, Char.ofNat 0x1F3FD]) := by
  constructor
  · intro blob h1 h2
    cases hms : findF09FMatches (hexOfBytes blob) with
    | nil => rw [hms] at h1; cases h1
    | cons m rest =>
      rw [hms] at h1
      have hm : m = "F09F9882".toList := by simpa using h1
      subst hm
      have hcont : containsSub (hexOfBytes blob) "F09F".toList = true := by
        apply findF09FMatchesAux_contains (hexOfBytes blob).length
        unfold findF09FMatches at hms
        rw [hms]
        simp
      unfold extractReactionEmoji
      rw [if_pos hcont, hms]
      unfold tryF09FCandidates
      have h2n : skinModAt (List.drop
          (firstIdx (hexOfBytes blob) (['F', '0', '9', 'F', '9', '8', '8', '2']) + 8)
          (hexOfBytes blob)) = false := h2
      have hdecn : utf8DecodeStrict
          (bytesOfHex (['F', '0', '9', 'F', '9', '8', '8', '2'])) =
          some [Char.ofNat 0x1F602] := by decide
      simp [h2n, hdecn]
  · intro blob h1 hpre
    cases hms : findF09FMatches (hexOfBytes blob) with
    | nil => rw [hms] at h1; cases h1
    | cons m rest =>
      rw [hms] at h1
      have hm : m = "F09F918D".toList := by simpa using h1
      subst hm
      have hcont : containsSub (hexOfBytes blob) "F09F".toList = true := by
        apply findF09FMatchesAux_contains (hexOfBytes blob).length
        unfold findF09FMatches at hms
        rw [hms]
        simp
      have hlen8 : ("F09F8FBD".toList).length = 8 := rfl
      have htake := hasPrefixCl_take "F09F8FBD".toList _ hpre
      rw [hlen8] at htake
      have hsplit : (hexOfBytes blob).drop
          (firstIdx (hexOfBytes blob) "F09F918D".toList +
            ("F09F918D".toList).length) =
          "F09F8FBD".toList ++ ((hexOfBytes blob).drop
            (firstIdx (hexOfBytes blob) "F09F918D".toList +
              ("F09F918D".toList).length)).drop 8 := by
        conv_lhs => rw [← List.take_append_drop 8 ((hexOfBytes blob).drop
          (firstIdx (hexOfBytes blob) "F09F918D".toList +
            ("F09F918D".toList).length))]
        rw [htake]
      have hskin : skinModAt ((hexOfBytes blob).drop
          (firstIdx (hexOfBytes blob) "F09F918D".toList +
            ("F09F918D".toList).length)) = true := by
        rw [hsplit]
        rfl
      unfold extractReactionEmoji
      rw [if_pos hcont, hms]
      unfold tryF09FCandidates
      have hskinn : skinModAt (List.drop
          (firstIdx (hexOfBytes blob) (['F', '0', '9', 'F', '9', '1', '8', 'D']) + 8)
          (hexOfBytes blob)) = true := hskin
      have htaken : List.take 8 (List.drop
          (firstIdx (hexOfBytes blob) (['F', '0', '9', 'F', '9', '1', '8', 'D']) + 8)
          (hexOfBytes blob)) = ['F', '0', '9', 'F', '8', 'F', 'B', 'D'] := htake
      have hdecn : utf8DecodeStrict (bytesOfHex
          ['F', '0', '9', 'F', '9', '1', '8', 'D', 'F', '0', '9', 'F', '8', 'F', 'B', 'D']) =
          some [Char.ofNat 0x1F44D, Char.ofNat 0x1F3FD] := by decide
      simp [hskinn, htaken, hdecn]

/-- C9 witness: the amended theorem applied to a bare laughing-face blob and
to a thumbs-up blob followed by the medium skin-tone modifier. -/
theorem c9_reaction_decoding_witness :
    extractReactionEmoji [0xF0, 0x9F, 0x98, 0x82] = some [Char.ofNat 0x1F602] ∧
    extractReactionEmoji [0xF0, 0x9F, 0x91, 0x8D, 0xF0, 0x9F, 0x8F, 0xBD] =
      some [Char.ofNat 0x1F44D, Char.ofNat 0x1F3FD] :=
  ⟨c9_reaction_decoding.1 [0xF0, 0x9F, 0x98, 0x82] (by decide) (by decide),
   c9_reaction_decoding.2 [0xF0, 0x9F, 0x91, 0x8D, 0xF0, 0x9F, 0x8F, 0xBD]
     (by decide) (by decide)⟩

end WAExport
